import Mathlib

/-!
Shallow embedding of the FluentClip clipboard-history store
(src/fluentclip.py): the `ClipboardItem` record, the store-relevant state
of the `FluentClip` window (its `max_history`, `current_content`,
`history` and persisted file), and the handlers that read or mutate that
state: `check_clipboard` / `process_clipboard_text` /
`process_clipboard_image`, `on_settings`, `on_search_changed`,
`on_item_clicked`, `save_history` and `load_history`.
-/

/-- Timestamps model Python `datetime.datetime` values: a calendar date
plus a time of day with microsecond resolution. -/
structure Timestamp where
  year : Nat
  month : Nat
  day : Nat
  hour : Nat
  minute : Nat
  second : Nat
  microsecond : Nat
deriving DecidableEq, Repr

/-- Bounds that `datetime` guarantees for the fields of any of its
values (the real bounds are tighter; these suffice for fixed-width
formatting). -/
def Timestamp.valid (t : Timestamp) : Prop :=
  t.year < 10000 ∧ t.month < 100 ∧ t.day < 100 ∧ t.hour < 100 ∧
  t.minute < 100 ∧ t.second < 100 ∧ t.microsecond < 1000000

instance (t : Timestamp) : Decidable t.valid := by
  unfold Timestamp.valid; infer_instance

/-- Decimal digit character, as produced by Python numeric formatting. -/
def digitChar (n : Nat) : Char := Char.ofNat (48 + n)

/-- Zero-padded fixed-width decimal rendering, as `datetime.isoformat`
and `strftime` produce for each numeric field. -/
def padNum : Nat → Nat → List Char
  | 0, _ => []
  | w + 1, n => padNum w (n / 10) ++ [digitChar (n % 10)]

/-- Reads a decimal numeral back from a list of digit characters. -/
def readNum (cs : List Char) : Nat :=
  cs.foldl (fun a c => a * 10 + (c.toNat - 48)) 0

/-- Character-list form of `datetime.isoformat()`:
`YYYY-MM-DDTHH:MM:SS`, with a `.ffffff` microsecond suffix exactly when
the microsecond field is nonzero (CPython omits it when it is zero). -/
def isoChars (t : Timestamp) : List Char :=
  padNum 4 t.year ++ ['-'] ++ padNum 2 t.month ++ ['-'] ++ padNum 2 t.day ++
  ['T'] ++ padNum 2 t.hour ++ [':'] ++ padNum 2 t.minute ++ [':'] ++
  padNum 2 t.second ++
  (if t.microsecond = 0 then [] else ['.'] ++ padNum 6 t.microsecond)

/-- Serialised timestamp, `self.timestamp.isoformat()`. -/
def Timestamp.isoformat (t : Timestamp) : String := ⟨isoChars t⟩

/-- Positional parse of an isoformat string back into a timestamp,
modelling `datetime.fromisoformat` on the strings this program writes
(made total: garbage yields a junk timestamp; in the program a parse
failure is swallowed by the `except` branch of `load_history`, which the
file model below folds into its `malformed` case). -/
def parseIsoChars (cs : List Char) : Timestamp :=
  { year := readNum (cs.take 4)
    month := readNum ((cs.drop 5).take 2)
    day := readNum ((cs.drop 8).take 2)
    hour := readNum ((cs.drop 11).take 2)
    minute := readNum ((cs.drop 14).take 2)
    second := readNum ((cs.drop 17).take 2)
    microsecond := if cs.length ≤ 19 then 0 else readNum (cs.drop 20) }

/-- String-level wrapper of `parseIsoChars`. -/
def Timestamp.fromisoformat (s : String) : Timestamp := parseIsoChars s.data

/-- Character-list form of `strftime("%Y-%m-%d %H:%M:%S")`, used for the
synthetic label of image entries. -/
def strftimeChars (t : Timestamp) : List Char :=
  padNum 4 t.year ++ ['-'] ++ padNum 2 t.month ++ ['-'] ++ padNum 2 t.day ++
  [' '] ++ padNum 2 t.hour ++ [':'] ++ padNum 2 t.minute ++ [':'] ++
  padNum 2 t.second

/-- Synthetic content of an image entry, `f"Image {timestamp.strftime(...)}"`. -/
def imageLabel (t : Timestamp) : String := "Image " ++ String.mk (strftimeChars t)

/-- One clipboard history entry (`ClipboardItem.__init__`): textual
content (for images, the synthetic label), a timestamp, the type tag
string (`"text"` or `"image"` as constructed by this program), and the
optional base64 image payload (Python `None` is `none` here). -/
structure ClipboardItem where
  content : String
  timestamp : Timestamp
  type : String
  image_data : Option String := none
deriving DecidableEq, Repr

/-- The JSON object written for one entry by `ClipboardItem.to_dict`:
the `image_data` key is either present (`some`) or absent (`none`). -/
structure ItemDict where
  content : String
  timestamp : String
  type : String
  image_data : Option String
deriving DecidableEq, Repr

/-- Serialisation `ClipboardItem.to_dict`: the `image_data` key is added
only when the attribute is truthy in Python, i.e. a nonempty string. -/
def ClipboardItem.to_dict (it : ClipboardItem) : ItemDict :=
  { content := it.content
    timestamp := it.timestamp.isoformat
    type := it.type
    image_data := match it.image_data with
      | some s => if s = "" then none else some s
      | none => none }

/-- Deserialisation `ClipboardItem.from_dict`: rebuilds the item, parsing
the timestamp and copying `image_data` when the key is present. -/
def ClipboardItem.from_dict (d : ItemDict) : ClipboardItem :=
  { content := d.content
    timestamp := Timestamp.fromisoformat d.timestamp
    type := d.type
    image_data := d.image_data }

/-- Observable states of the persisted history file, as `load_history`
distinguishes them: absent; present but failing JSON parsing or item
decoding (the `except` branch); present and parsing to a JSON value that
is not a list (the `isinstance` check fails); or a well-formed list of
entry objects. -/
inductive HistoryFile where
  | missing
  | malformed
  | nonList
  | entries (ds : List ItemDict)
deriving DecidableEq, Repr

/-- The store-relevant state of the `FluentClip` window: the capacity
bound `max_history`, the duplicate-suppression cache `current_content`,
the most-recent-first `history` list, and the persisted file. -/
structure FluentClip where
  max_history : Nat := 30
  current_content : String := ""
  history : List ClipboardItem := []
  file : HistoryFile := .missing
deriving DecidableEq, Repr

/-- The state built in `FluentClip.__init__` before `load_history` runs:
capacity 30, empty cache and history, with the given on-disk file. -/
def initState (file : HistoryFile) : FluentClip :=
  { max_history := 30, current_content := "", history := [], file := file }

/-- Persisting step `save_history`: the file now holds the serialised
entry list (the write-failure path only logs and changes nothing the
store reads back, so the successful write is modelled). -/
def save_history (s : FluentClip) : FluentClip :=
  { s with file := .entries (s.history.map ClipboardItem.to_dict) }

/-- Startup load `load_history`: a missing, malformed or non-list file
leaves the state untouched (the error is only printed, and `history` was
initialised to `[]`); a well-formed list is installed verbatim, and
`current_content` is primed from the first loaded entry when there is
one. -/
def load_history (s : FluentClip) : FluentClip :=
  match s.file with
  | .missing => s
  | .malformed => s
  | .nonList => s
  | .entries ds =>
    match ds.map ClipboardItem.from_dict with
    | [] => { s with history := [] }
    | h :: t => { s with history := h :: t, current_content := h.content }

/-- Loop condition of `process_clipboard_text`: an existing text entry
with exactly the given content. -/
def matchesText (text : String) (it : ClipboardItem) : Bool :=
  it.type == "text" && it.content == text

/-- Loop condition of `process_clipboard_image`: an existing image entry
with an identical base64 payload. -/
def matchesImage (data : String) (it : ClipboardItem) : Bool :=
  it.type == "image" && it.image_data == some data

/-- Handler `process_clipboard_text`: records the text as last seen,
then either pops the first matching text entry and reinserts a fresh one
at index 0, or inserts a new entry and truncates to `max_history`; both
paths end in `save_history`. -/
def process_clipboard_text (s : FluentClip) (text : String) (now : Timestamp) :
    FluentClip :=
  let s1 := { s with current_content := text }
  if s1.history.any (matchesText text) then
    save_history { s1 with
      history := ⟨text, now, "text", none⟩ :: s1.history.eraseP (matchesText text) }
  else
    let h := (⟨text, now, "text", none⟩ : ClipboardItem) :: s1.history
    let h2 := if h.length > s1.max_history then h.take s1.max_history else h
    save_history { s1 with history := h2 }

/-- Handler `process_clipboard_image`: when PNG encoding of the pixbuf
succeeds, either pops the first entry with an identical payload and
reinserts a fresh one (new label, new timestamp) at index 0, or inserts
a new entry and truncates to `max_history`; both paths end in
`save_history`. `current_content` is never touched. -/
def process_clipboard_image (s : FluentClip) (ok : Bool) (data : String)
    (now : Timestamp) : FluentClip :=
  if ok then
    if s.history.any (matchesImage data) then
      save_history { s with
        history := ⟨imageLabel now, now, "image", some data⟩ ::
          s.history.eraseP (matchesImage data) }
    else
      let h := (⟨imageLabel now, now, "image", some data⟩ : ClipboardItem) ::
        s.history
      let h2 := if h.length > s.max_history then h.take s.max_history else h
      save_history { s with history := h2 }
  else s

/-- One polling tick's capture as `check_clipboard` sees it: either a
text snapshot, or an image snapshot together with the success flag of
`pixbuf.save_to_bufferv`, stamped with the capture time. -/
inductive ClipEvent where
  | text (t : String) (now : Timestamp)
  | image (ok : Bool) (data : String) (now : Timestamp)
deriving DecidableEq, Repr

/-- Whether an event is an image capture. -/
def ClipEvent.isImage : ClipEvent → Bool
  | .image _ _ _ => true
  | .text _ _ => false

/-- Truthiness of Python `text.strip()`: the stripped string is nonempty
exactly when the text holds at least one non-whitespace character (the
stripped value itself is never used by `check_clipboard`). -/
def stripTruthy (t : String) : Bool := t.data.any (fun c => !c.isWhitespace)

/-- Polling step `check_clipboard` specialised to one captured snapshot:
a text capture is processed only when it is nonempty, differs from
`current_content`, and is not whitespace-only; an image capture is
handed to `process_clipboard_image` unconditionally. -/
def observe (s : FluentClip) : ClipEvent → FluentClip
  | .text t now =>
    if t != "" && t != s.current_content && stripTruthy t then
      process_clipboard_text s t now
    else s
  | .image ok data now => process_clipboard_image s ok data now

/-- Clamp of the settings spin button: its
`Gtk.Adjustment(lower=5, upper=100)` keeps the widget's value inside
`[5, 100]`, so `spin_button.get_value()` is the requested value clamped
to that range. -/
def clampSpin (v : Nat) : Nat := max 5 (min 100 v)

/-- Settings dialog handler `on_settings`: on OK the spin button's
(clamped) value becomes the new `max_history` and the opacity is
updated; the history list is not truncated and `save_history` is not
called. On Cancel nothing changes. -/
def on_settings (s : FluentClip) (ok : Bool) (requested : Nat) : FluentClip :=
  if ok then { s with max_history := clampSpin requested } else s

/-- ASCII lowering, modelling `str.lower()` on the strings this program
handles. -/
def strLower (s : String) : String := ⟨s.data.map Char.toLower⟩

/-- Whether `needle` is an initial run of `hay`, character by character. -/
def startsWithChars : List Char → List Char → Bool
  | _, [] => true
  | [], _ :: _ => false
  | a :: as, b :: bs => a == b && startsWithChars as bs

/-- Whether `needle` occurs contiguously inside `hay`: the semantics of
Python's `in` operator on strings. -/
def containsChars : List Char → List Char → Bool
  | [], needle => needle.isEmpty
  | a :: as, needle => startsWithChars (a :: as) needle || containsChars as needle

/-- Search handler `on_search_changed`: rebuilds the visible list from
the history entries whose lowered content contains the lowered query,
keeping history order; text and image entries are tested by the same
containment check on `content`, any other type tag falls through both
branches. The store fields themselves are not touched, so the state is
returned as is. -/
def on_search_changed (s : FluentClip) (query : String) :
    FluentClip × List ClipboardItem :=
  let search_text := strLower query
  (s, s.history.filter fun item =>
    if item.type == "text" then
      containsChars (strLower item.content).data search_text.data
    else if item.type == "image" then
      containsChars (strLower item.content).data search_text.data
    else false)

/-- Row activation `on_item_clicked`, viewed through the index of the
clicked row: `refresh_list` builds one row per history entry in order,
so the row at index `i` carries `history[i]`, while an activation that
reaches the handler without a usable row (the `if row and hasattr`
guard) selects nothing. The handler writes the OS clipboard and hides
the window but never touches the store fields, so the state component is
returned unchanged. -/
def on_item_clicked (s : FluentClip) (index : Int) :
    FluentClip × Option ClipboardItem :=
  (s, if 0 ≤ index then s.history.get? index.toNat else none)

/-- Outcomes a row activation can have, with an explicit error channel
so that the presence or absence of an `OutOfRange` signal is expressible
in the model: the handler either selects an entry, or silently ignores
the activation (its `if row and hasattr` guard has no else branch and no
raise), or would signal out-of-range — an outcome kept only for
comparison with the specified behaviour. -/
inductive SelectOutcome where
  | selected (it : ClipboardItem)
  | ignored
  | outOfRange
deriving DecidableEq, Repr

/-- Observable outcome of `on_item_clicked` at the given row index,
built from the source handler: it selects the carried item when the row
exists, and otherwise falls through its guard doing nothing; no code
path produces `outOfRange`. -/
def on_item_clicked_outcome (s : FluentClip) (index : Int) : SelectOutcome :=
  match (on_item_clicked s index).2 with
  | some it => .selected it
  | none => .ignored

/-! Basic facts about the decimal helpers. -/

theorem length_padNum (w n : Nat) : (padNum w n).length = w := by
  induction w generalizing n with
  | zero => rfl
  | succ w ih => simp [padNum, ih]

theorem toNat_digitChar {r : Nat} (h : r < 10) : (digitChar r).toNat = 48 + r := by
  interval_cases r <;> rfl

theorem readNum_append_digit (xs : List Char) (c : Char) :
    readNum (xs ++ [c]) = readNum xs * 10 + (c.toNat - 48) := by
  simp [readNum, List.foldl_append]

theorem readNum_padNum (w n : Nat) : readNum (padNum w n) = n % 10 ^ w := by
  induction w generalizing n with
  | zero => simp [padNum, readNum, Nat.mod_one]
  | succ w ih =>
    have h10 : n % 10 < 10 := Nat.mod_lt _ (by decide)
    have step : readNum (padNum (w + 1) n)
        = readNum (padNum w (n / 10)) * 10 + ((digitChar (n % 10)).toNat - 48) := by
      rw [padNum, readNum_append_digit]
    rw [step, toNat_digitChar h10, ih]
    have hmul : 10 ^ (w + 1) = 10 * 10 ^ w := by
      rw [pow_succ, Nat.mul_comm]
    rw [hmul, Nat.mod_mul]
    omega

theorem readNum_padNum_of_lt {w n : Nat} (h : n < 10 ^ w) :
    readNum (padNum w n) = n := by
  rw [readNum_padNum, Nat.mod_eq_of_lt h]

theorem parseIsoChars_shape (a b c d e f g : List Char)
    (ha : a.length = 4) (hb : b.length = 2) (hc : c.length = 2)
    (hd : d.length = 2) (he : e.length = 2) (hf : f.length = 2) :
    parseIsoChars (a ++ ['-'] ++ b ++ ['-'] ++ c ++ ['T'] ++ d ++ [':'] ++
        e ++ [':'] ++ f ++ g) =
      { year := readNum a, month := readNum b, day := readNum c,
        hour := readNum d, minute := readNum e, second := readNum f,
        microsecond := if g = [] then 0 else readNum (g.drop 1) } := by
  set R5 : List Char := f ++ g with hR5
  set R4 : List Char := e ++ (':' :: R5) with hR4
  set R3 : List Char := d ++ (':' :: R4) with hR3
  set R2 : List Char := c ++ ('T' :: R3) with hR2
  set R1 : List Char := b ++ ('-' :: R2) with hR1
  set cs : List Char := a ++ ['-'] ++ b ++ ['-'] ++ c ++ ['T'] ++ d ++ [':'] ++
    e ++ [':'] ++ f ++ g with hcs
  have hassoc : cs = a ++ ('-' :: R1) := by
    simp [hcs, hR1, hR2, hR3, hR4, hR5, List.append_assoc]
  have d4 : cs.drop 4 = '-' :: R1 := by rw [hassoc]; exact List.drop_left' ha
  have d5 : cs.drop 5 = R1 := by
    have h := (List.drop_drop 1 4 cs).symm
    rw [d4] at h
    exact h
  have d7 : cs.drop 7 = '-' :: R2 := by
    have h := (List.drop_drop 2 5 cs).symm
    rw [d5, hR1, List.drop_left' hb] at h
    exact h
  have d8 : cs.drop 8 = R2 := by
    have h := (List.drop_drop 1 7 cs).symm
    rw [d7] at h
    exact h
  have d10 : cs.drop 10 = 'T' :: R3 := by
    have h := (List.drop_drop 2 8 cs).symm
    rw [d8, hR2, List.drop_left' hc] at h
    exact h
  have d11 : cs.drop 11 = R3 := by
    have h := (List.drop_drop 1 10 cs).symm
    rw [d10] at h
    exact h
  have d13 : cs.drop 13 = ':' :: R4 := by
    have h := (List.drop_drop 2 11 cs).symm
    rw [d11, hR3, List.drop_left' hd] at h
    exact h
  have d14 : cs.drop 14 = R4 := by
    have h := (List.drop_drop 1 13 cs).symm
    rw [d13] at h
    exact h
  have d16 : cs.drop 16 = ':' :: R5 := by
    have h := (List.drop_drop 2 14 cs).symm
    rw [d14, hR4, List.drop_left' he] at h
    exact h
  have d17 : cs.drop 17 = R5 := by
    have h := (List.drop_drop 1 16 cs).symm
    rw [d16] at h
    exact h
  have d19 : cs.drop 19 = g := by
    have h := (List.drop_drop 2 17 cs).symm
    rw [d17, hR5, List.drop_left' hf] at h
    exact h
  have d20 : cs.drop 20 = g.drop 1 := by
    have h := (List.drop_drop 1 19 cs).symm
    rw [d19] at h
    exact h
  have hlen : cs.length = 19 + g.length := by
    simp [hcs, List.length_append, ha, hb, hc, hd, he, hf]
    omega
  have t4 : cs.take 4 = a := by rw [hassoc]; exact List.take_left' ha
  have t5 : (cs.drop 5).take 2 = b := by rw [d5, hR1]; exact List.take_left' hb
  have t8 : (cs.drop 8).take 2 = c := by rw [d8, hR2]; exact List.take_left' hc
  have t11 : (cs.drop 11).take 2 = d := by rw [d11, hR3]; exact List.take_left' hd
  have t14 : (cs.drop 14).take 2 = e := by rw [d14, hR4]; exact List.take_left' he
  have t17 : (cs.drop 17).take 2 = f := by rw [d17, hR5]; exact List.take_left' hf
  unfold parseIsoChars
  simp only [Timestamp.mk.injEq]
  refine ⟨?_, ?_, ?_, ?_, ?_, ?_, ?_⟩
  · rw [t4]
  · rw [t5]
  · rw [t8]
  · rw [t11]
  · rw [t14]
  · rw [t17]
  · rw [hlen, d20]
    rcases g with _ | ⟨gc, gs⟩
    · simp
    · simp

theorem fromisoformat_isoformat (t : Timestamp) (hv : t.valid) :
    Timestamp.fromisoformat t.isoformat = t := by
  obtain ⟨year, month, day, hour, minute, second, micro⟩ := t
  obtain ⟨hy, hmo, hd, hh, hmi, hs, hus⟩ := hv
  have e4 : (10 : Nat) ^ 4 = 10000 := by norm_num
  have e2 : (10 : Nat) ^ 2 = 100 := by norm_num
  have e6 : (10 : Nat) ^ 6 = 1000000 := by norm_num
  show parseIsoChars (isoChars ⟨year, month, day, hour, minute, second, micro⟩) = _
  unfold isoChars
  rw [parseIsoChars_shape _ _ _ _ _ _ _ (length_padNum 4 _) (length_padNum 2 _)
    (length_padNum 2 _) (length_padNum 2 _) (length_padNum 2 _) (length_padNum 2 _)]
  simp only [Timestamp.mk.injEq]
  refine ⟨readNum_padNum_of_lt (by rw [e4]; exact hy),
    readNum_padNum_of_lt (by rw [e2]; exact hmo),
    readNum_padNum_of_lt (by rw [e2]; exact hd),
    readNum_padNum_of_lt (by rw [e2]; exact hh),
    readNum_padNum_of_lt (by rw [e2]; exact hmi),
    readNum_padNum_of_lt (by rw [e2]; exact hs), ?_⟩
  by_cases hmz : micro = 0
  · simp [hmz]
  · simp only [hmz, if_neg, ite_false]
    have hne : ('.' :: padNum 6 micro : List Char) ≠ [] := by simp
    simp only [List.singleton_append, hne, ite_false, List.drop_succ_cons, List.drop_zero]
    exact readNum_padNum_of_lt (by rw [e6]; exact hus)

/-! Facts about the observation step. -/

theorem length_eraseP_of_any {α : Type} {p : α → Bool} {l : List α}
    (h : l.any p = true) : (l.eraseP p).length + 1 = l.length := by
  obtain ⟨x, hx, hpx⟩ := List.any_eq_true.mp h
  exact List.length_eraseP_add_one hx hpx

theorem process_text_max_history (s : FluentClip) (text : String) (now : Timestamp) :
    (process_clipboard_text s text now).max_history = s.max_history := by
  by_cases hdup : s.history.any (matchesText text) = true
  · simp [process_clipboard_text, save_history, hdup]
  · by_cases hgt : s.history.length + 1 > s.max_history
    · simp [process_clipboard_text, save_history, hdup, hgt]
    · simp [process_clipboard_text, save_history, hdup, hgt]

theorem process_image_max_history (s : FluentClip) (ok : Bool) (data : String)
    (now : Timestamp) :
    (process_clipboard_image s ok data now).max_history = s.max_history := by
  by_cases hok : ok = true
  · by_cases hdup : s.history.any (matchesImage data) = true
    · simp [process_clipboard_image, save_history, hok, hdup]
    · by_cases hgt : s.history.length + 1 > s.max_history
      · simp [process_clipboard_image, save_history, hok, hdup, hgt]
      · simp [process_clipboard_image, save_history, hok, hdup, hgt]
  · simp [process_clipboard_image, save_history, hok]

theorem observe_max_history (s : FluentClip) (e : ClipEvent) :
    (observe s e).max_history = s.max_history := by
  cases e with
  | text t now =>
    by_cases hc : (t != "" && t != s.current_content && stripTruthy t) = true
    · simp [observe, hc, process_text_max_history]
    · simp [observe, hc]
  | image ok data now =>
    simp [observe, process_image_max_history]

theorem process_text_length_le (s : FluentClip) (text : String) (now : Timestamp)
    (h : s.history.length ≤ s.max_history) :
    (process_clipboard_text s text now).history.length ≤ s.max_history := by
  by_cases hdup : s.history.any (matchesText text) = true
  · have hl := length_eraseP_of_any hdup
    simp [process_clipboard_text, save_history, hdup]
    omega
  · by_cases hgt : s.history.length + 1 > s.max_history
    · simp [process_clipboard_text, save_history, hdup, hgt]
    · simp [process_clipboard_text, save_history, hdup, hgt]
      omega

theorem process_image_length_le (s : FluentClip) (ok : Bool) (data : String)
    (now : Timestamp) (h : s.history.length ≤ s.max_history) :
    (process_clipboard_image s ok data now).history.length ≤ s.max_history := by
  by_cases hok : ok = true
  · by_cases hdup : s.history.any (matchesImage data) = true
    · have hl := length_eraseP_of_any hdup
      simp [process_clipboard_image, save_history, hok, hdup]
      omega
    · by_cases hgt : s.history.length + 1 > s.max_history
      · simp [process_clipboard_image, save_history, hok, hdup, hgt]
      · simp [process_clipboard_image, save_history, hok, hdup, hgt]
        omega
  · simp [process_clipboard_image, hok]
    exact h

theorem observe_length_le (s : FluentClip) (e : ClipEvent)
    (h : s.history.length ≤ s.max_history) :
    (observe s e).history.length ≤ s.max_history := by
  cases e with
  | text t now =>
    by_cases hc : (t != "" && t != s.current_content && stripTruthy t) = true
    · simp only [observe, hc, if_true]
      exact process_text_length_le s t now h
    · simp only [observe, hc, if_false]
      exact h
  | image ok data now =>
    simp only [observe]
    exact process_image_length_le s ok data now h

/-- C1: starting from any state whose history has at most `max_history`
entries, every sequence of `observe` calls (text or image snapshots
handled by `process_clipboard_text` / `process_clipboard_image`) keeps
`history.length ≤ max_history` after each call; the capacity itself is
untouched by observation. Since the event list is arbitrary, the bound
holds after every prefix of the sequence. -/
theorem observe_seq_preserves_capacity (s : FluentClip) (es : List ClipEvent)
    (h : s.history.length ≤ s.max_history) :
    (es.foldl observe s).history.length ≤ (es.foldl observe s).max_history ∧
    (es.foldl observe s).max_history = s.max_history := by
  induction es generalizing s with
  | nil => exact ⟨h, rfl⟩
  | cons e es ih =>
    rw [List.foldl_cons]
    have hstep : (observe s e).history.length ≤ (observe s e).max_history := by
      rw [observe_max_history]
      exact observe_length_le s e h
    obtain ⟨h1, h2⟩ := ih (observe s e) hstep
    exact ⟨h1, h2.trans (observe_max_history s e)⟩

/-- Witness for C1 at a concrete state and a concrete event sequence. -/
theorem observe_seq_preserves_capacity_witness :
    (([ClipEvent.text "alpha" ⟨2024, 3, 4, 5, 6, 7, 0⟩,
       ClipEvent.image true "QUJD" ⟨2024, 3, 4, 5, 6, 8, 0⟩].foldl observe
        (initState .missing)).history.length ≤
      ([ClipEvent.text "alpha" ⟨2024, 3, 4, 5, 6, 7, 0⟩,
        ClipEvent.image true "QUJD" ⟨2024, 3, 4, 5, 6, 8, 0⟩].foldl observe
         (initState .missing)).max_history) :=
  (observe_seq_preserves_capacity (initState .missing) _ (by decide)).1

/-- Observing the text currently cached in `current_content` is rejected
by the `text != self.current_content` conjunct of `check_clipboard`. -/
theorem observe_current_text_noop (s : FluentClip) (now : Timestamp) :
    observe s (.text s.current_content now) = s := by
  simp [observe]

/-- C6: re-observing a text candidate equal to `current_content` (the
cached last-seen text, as happens when the unchanged clipboard is polled
every tick) any number of times is a no-op: the state, and with it the
entries list and its order, is unchanged after each such call. -/
theorem repeated_unchanged_poll_noop (s : FluentClip) (now : Timestamp) (n : Nat) :
    (List.replicate n (ClipEvent.text s.current_content now)).foldl observe s = s := by
  induction n with
  | zero => rfl
  | succ n ih =>
    rw [List.replicate_succ, List.foldl_cons, observe_current_text_noop]
    exact ih

theorem process_image_current_content (s : FluentClip) (ok : Bool) (data : String)
    (now : Timestamp) :
    (process_clipboard_image s ok data now).current_content = s.current_content := by
  by_cases hok : ok = true
  · by_cases hdup : s.history.any (matchesImage data) = true
    · simp [process_clipboard_image, save_history, hok, hdup]
    · by_cases hgt : s.history.length + 1 > s.max_history
      · simp [process_clipboard_image, save_history, hok, hdup, hgt]
      · simp [process_clipboard_image, save_history, hok, hdup, hgt]
  · simp [process_clipboard_image, hok]

/-- Folding image observations over a state never moves `current_content`. -/
theorem foldl_image_current_content (es : List ClipEvent) :
    ∀ s : FluentClip, (∀ e ∈ es, e.isImage = true) →
      (es.foldl observe s).current_content = s.current_content := by
  induction es with
  | nil => intro s _; rfl
  | cons e es ih =>
    intro s h
    rw [List.foldl_cons]
    have he : e.isImage = true := h e (List.mem_cons_self e es)
    have hrest : ∀ e2 ∈ es, e2.isImage = true :=
      fun e2 he2 => h e2 (List.mem_cons_of_mem e he2)
    rw [ih (observe s e) hrest]
    cases e with
    | text t now => simp [ClipEvent.isImage] at he
    | image ok data now =>
      exact process_image_current_content s ok data now

/-- C10: image observations never change `current_content`
(`process_clipboard_image` does not assign it; only
`process_clipboard_text` does), so after any sequence of image captures
a polled text equal to the most recently observed text is still
suppressed as a duplicate, even though that text entry need no longer
sit at index 0. -/
theorem image_observations_keep_last_seen (s : FluentClip) (es : List ClipEvent)
    (h : ∀ e ∈ es, e.isImage = true) :
    (es.foldl observe s).current_content = s.current_content ∧
    ∀ now, observe (es.foldl observe s) (.text s.current_content now) =
      es.foldl observe s := by
  have key := foldl_image_current_content es s h
  refine ⟨key, fun now => ?_⟩
  rw [← key]
  exact observe_current_text_noop (es.foldl observe s) now

/-- Witness for C10 at a concrete state and one concrete image capture. -/
theorem image_observations_keep_last_seen_witness :
    (([ClipEvent.image true "QUJD" ⟨2024, 3, 4, 5, 6, 8, 0⟩].foldl observe
      { max_history := 30, current_content := "alpha",
        history := [⟨"alpha", ⟨2024, 3, 4, 5, 6, 7, 0⟩, "text", none⟩],
        file := .missing }).current_content = "alpha") :=
  (image_observations_keep_last_seen
    { max_history := 30, current_content := "alpha",
      history := [⟨"alpha", ⟨2024, 3, 4, 5, 6, 7, 0⟩, "text", none⟩],
      file := .missing }
    [ClipEvent.image true "QUJD" ⟨2024, 3, 4, 5, 6, 8, 0⟩] (by decide)).1

/-- C2: observing a candidate that already matches an existing entry —
by `(type, content)` for text, by `(type, payload)` for images — and,
for text, whose content differs from `current_content`, pops the first
matching entry and puts a refreshed entry (the candidate's content, the
payload for images, a fresh timestamp) at index 0, leaving the length of
the entries list unchanged. -/
theorem observe_duplicate_refreshes (s : FluentClip) (t d : String) (now : Timestamp) :
    (s.history.any (matchesText t) = true → t ≠ "" → t ≠ s.current_content →
      stripTruthy t = true →
      (observe s (.text t now)).history =
        ⟨t, now, "text", none⟩ :: s.history.eraseP (matchesText t) ∧
      (observe s (.text t now)).history.length = s.history.length) ∧
    (s.history.any (matchesImage d) = true →
      (observe s (.image true d now)).history =
        ⟨imageLabel now, now, "image", some d⟩ :: s.history.eraseP (matchesImage d) ∧
      (observe s (.image true d now)).history.length = s.history.length) := by
  constructor
  · intro hdup hne hcur htrim
    have hc : (t != "" && t != s.current_content && stripTruthy t) = true := by
      simp [hne, hcur, htrim]
    have hshape : (observe s (.text t now)).history =
        ⟨t, now, "text", none⟩ :: s.history.eraseP (matchesText t) := by
      simp [observe, hc, process_clipboard_text, save_history, hdup]
    refine ⟨hshape, ?_⟩
    rw [hshape, List.length_cons, length_eraseP_of_any hdup]
  · intro hdup
    have hshape : (observe s (.image true d now)).history =
        ⟨imageLabel now, now, "image", some d⟩ :: s.history.eraseP (matchesImage d) := by
      simp [observe, process_clipboard_image, save_history, hdup]
    refine ⟨hshape, ?_⟩
    rw [hshape, List.length_cons, length_eraseP_of_any hdup]

/-- Concrete example items and states used by the witnesses below. -/
def exText (c : String) (sec : Nat) : ClipboardItem :=
  ⟨c, ⟨2024, 1, 1, 0, 0, sec, 0⟩, "text", none⟩

/-- Concrete image item labelled like the program labels it. -/
def exImage (d : String) (sec : Nat) : ClipboardItem :=
  ⟨"Image 2024-01-01 00:00:0" ++ toString sec, ⟨2024, 1, 1, 0, 0, sec, 0⟩,
    "image", some d⟩

/-- Concrete state holding one text entry and one image entry. -/
def exState2 : FluentClip :=
  { max_history := 30
    current_content := "beta"
    history := [exText "beta" 0, exImage "QUJD" 1, exText "alpha" 2]
    file := .missing }

/-- Witness for C2: in `exState2` both the text candidate `"alpha"` and
the image candidate with payload `"QUJD"` are duplicates; observing each
keeps the history length at 3. -/
theorem observe_duplicate_refreshes_witness :
    ((observe exState2 (.text "alpha" ⟨2024, 1, 2, 0, 0, 0, 0⟩)).history.length = 3) ∧
    ((observe exState2 (.image true "QUJD" ⟨2024, 1, 2, 0, 0, 0, 0⟩)).history.length = 3) :=
  ⟨((observe_duplicate_refreshes exState2 "alpha" "QUJD" ⟨2024, 1, 2, 0, 0, 0, 0⟩).1
      (by decide) (by decide) (by decide) (by decide)).2,
   ((observe_duplicate_refreshes exState2 "alpha" "QUJD" ⟨2024, 1, 2, 0, 0, 0, 0⟩).2
      (by decide)).2⟩

/-- Concrete state with six distinct text entries and capacity 30. -/
def exState6 : FluentClip :=
  { max_history := 30
    current_content := "f"
    history := [exText "f" 5, exText "e" 4, exText "d" 3, exText "c" 2,
                exText "b" 1, exText "a" 0]
    file := .missing }

/-- C3 counterexample: the claim says a capacity request `n < 1` fails
with `InvalidArgument` leaving the state unchanged, and a request
`n ≥ 1` truncates the list to `n` and persists. On the code, accepting
the settings dialog with the spin button at 5 (a legal `n ≥ 1`) leaves
the six stored entries untouched (no truncation to 5) and writes
nothing to the file; and a request of 0 does not fail — the spin
button's adjustment clamps it to 5, which is then installed, changing
the state. -/
theorem on_settings_counterexample :
    (on_settings exState6 true 5).max_history = 5 ∧
    (on_settings exState6 true 5).history.length = 6 ∧
    (on_settings exState6 true 5).file = HistoryFile.missing ∧
    (on_settings exState6 true 0).max_history = 5 ∧
    exState6.max_history = 30 := by
  refine ⟨rfl, rfl, rfl, rfl, rfl⟩

/-- C3 amended: accepting the settings dialog installs the spin-button
value — clamped by its GTK adjustment to `[5, 100]`, so a value below 1
never reaches the store and no error is raised — as the new
`max_history`, without truncating the existing entries list and without
persisting; cancelling changes nothing. The new bound only takes effect
on later insertions. -/
theorem on_settings_spec (s : FluentClip) (v : Nat) :
    (on_settings s true v).history = s.history ∧
    (on_settings s true v).file = s.file ∧
    (on_settings s true v).current_content = s.current_content ∧
    (on_settings s true v).max_history = max 5 (min 100 v) ∧
    on_settings s false v = s := by
  refine ⟨rfl, rfl, rfl, rfl, rfl⟩

/-- C4 counterexample: the claim says `select(index)` fails with
`OutOfRange` exactly when the index is outside `[0, entries.length)` —
in particular, for every index on an empty history. On the code, row
activation at index 0 of the freshly initialised empty store signals no
`OutOfRange`: the handler's row guard silently ignores it, and the
store state is unchanged. -/
theorem on_item_clicked_counterexample :
    on_item_clicked_outcome (initState .missing) 0 = SelectOutcome.ignored ∧
    on_item_clicked_outcome (initState .missing) 0 ≠ SelectOutcome.outOfRange ∧
    (on_item_clicked (initState .missing) 0).1 = initState .missing := by
  refine ⟨by decide, by decide, by decide⟩

/-- C4 amended: row activation through `on_item_clicked` never signals
`OutOfRange` (the handler contains no raise); an index outside
`[0, entries.length)` — in particular every index on an empty history —
is silently ignored, selecting nothing; an index inside the range
selects the entry at that index; and in every case the store state is
neither mutated nor reordered. -/
theorem on_item_clicked_amended_spec (s : FluentClip) (i : Int) :
    (on_item_clicked s i).1 = s ∧
    on_item_clicked_outcome s i ≠ SelectOutcome.outOfRange ∧
    (on_item_clicked_outcome s i = SelectOutcome.ignored ↔
      (i < 0 ∨ (s.history.length : Int) ≤ i)) ∧
    (∀ _h0 : 0 ≤ i, ∀ hlt : i.toNat < s.history.length,
      on_item_clicked_outcome s i =
        SelectOutcome.selected (s.history.get ⟨i.toNat, hlt⟩)) := by
  have hopt : (on_item_clicked s i).2 = none ↔
      (i < 0 ∨ (s.history.length : Int) ≤ i) := by
    by_cases h0 : 0 ≤ i
    · simp only [on_item_clicked, h0, if_true, List.get?_eq_none]
      omega
    · simp only [on_item_clicked, h0, if_false]
      constructor
      · intro _
        left
        omega
      · intro _
        trivial
  have hign : on_item_clicked_outcome s i = SelectOutcome.ignored ↔
      (on_item_clicked s i).2 = none := by
    unfold on_item_clicked_outcome
    cases h : (on_item_clicked s i).2 with
    | none => simp [h]
    | some it => simp [h]
  refine ⟨rfl, ?_, hign.trans hopt, ?_⟩
  · unfold on_item_clicked_outcome
    cases h : (on_item_clicked s i).2 with
    | none => simp [h]
    | some it => simp [h]
  · intro h0 hlt
    have hsome : (on_item_clicked s i).2 =
        some (s.history.get ⟨i.toNat, hlt⟩) := by
      simp only [on_item_clicked, h0, if_true]
      exact List.get?_eq_get hlt
    unfold on_item_clicked_outcome
    rw [hsome]

/-- Witness for the amended C4: in the concrete three-entry state, index
0 selects the head entry. -/
theorem on_item_clicked_amended_spec_witness :
    on_item_clicked_outcome exState2 0 =
      SelectOutcome.selected (exText "beta" 0) := by
  have h := (on_item_clicked_amended_spec exState2 0).2.2.2 (by decide) (by decide)
  rw [h]
  decide

/-! Persistence: load behaviour and the save/load round trip. -/

theorem load_history_of_entries (s : FluentClip) (ds : List ItemDict)
    (hf : s.file = .entries ds) :
    (load_history s).history = ds.map ClipboardItem.from_dict := by
  unfold load_history
  rw [hf]
  cases ds with
  | nil => rfl
  | cons d ds => rfl

theorem load_history_max_history (s : FluentClip) :
    (load_history s).max_history = s.max_history := by
  unfold load_history
  cases hf : s.file with
  | missing => rfl
  | malformed => rfl
  | nonList => rfl
  | entries ds =>
    cases ds with
    | nil => rfl
    | cons d ds => rfl

/-- Relation the round-trip claim asks for: same content, same type tag,
timestamp equal at least to the second, and identical payload for image
entries. -/
def roundtripEq (a b : ClipboardItem) : Prop :=
  a.content = b.content ∧ a.type = b.type ∧
  (a.timestamp.year = b.timestamp.year ∧ a.timestamp.month = b.timestamp.month ∧
   a.timestamp.day = b.timestamp.day ∧ a.timestamp.hour = b.timestamp.hour ∧
   a.timestamp.minute = b.timestamp.minute ∧
   a.timestamp.second = b.timestamp.second) ∧
  (a.type = "image" → a.image_data = b.image_data)

theorem roundtripEq_from_to_dict (it : ClipboardItem) (hv : it.timestamp.valid)
    (him : it.type = "image" → it.image_data ≠ some "") :
    roundtripEq it (ClipboardItem.from_dict it.to_dict) := by
  have hts : Timestamp.fromisoformat it.timestamp.isoformat = it.timestamp :=
    fromisoformat_isoformat it.timestamp hv
  unfold roundtripEq ClipboardItem.from_dict ClipboardItem.to_dict
  refine ⟨rfl, rfl, ?_, ?_⟩
  · simp [hts]
  · intro hty
    cases hd : it.image_data with
    | none => simp [hd]
    | some p =>
      have hp : p ≠ "" := by
        intro hp
        exact him hty (by rw [hd, hp])
      simp [hd, hp]

/-- C5: `save_history` followed by `load_history` reproduces an equal
sequence of entries — pairwise same content, same type tag, timestamp
equal (in particular to the second), and identical payload bytes for
image entries — for every history whose timestamps are in `datetime`
range and whose image entries carry a nonempty payload (the program's
image payloads are base64 of PNG data, never empty). -/
theorem save_load_roundtrip (s : FluentClip)
    (hts : ∀ it ∈ s.history, it.timestamp.valid)
    (him : ∀ it ∈ s.history, it.type = "image" → it.image_data ≠ some "") :
    List.Forall₂ roundtripEq s.history (load_history (save_history s)).history := by
  have hload : (load_history (save_history s)).history =
      (s.history.map ClipboardItem.to_dict).map ClipboardItem.from_dict :=
    load_history_of_entries (save_history s) _ rfl
  rw [hload, List.map_map]
  rw [show s.history.map (ClipboardItem.from_dict ∘ ClipboardItem.to_dict) =
      List.map (fun it => ClipboardItem.from_dict it.to_dict) s.history from rfl]
  rw [List.forall₂_map_right_iff]
  rw [List.forall₂_same]
  intro it hit
  exact roundtripEq_from_to_dict it (hts it hit) (him it hit)

/-- Witness for C5 at the concrete three-entry state. -/
theorem save_load_roundtrip_witness :
    List.Forall₂ roundtripEq exState2.history
      (load_history (save_history exState2)).history :=
  save_load_roundtrip exState2 (by decide) (by decide)

/-- C8: with the history initialised empty, a missing persisted file, a
file that fails parsing, and a file whose JSON is not a list all leave
the history empty after `load_history`; none of these paths signals an
error to the caller, so startup proceeds. -/
theorem load_history_missing_or_malformed_empty :
    (load_history (initState .missing)).history = [] ∧
    (load_history (initState .malformed)).history = [] ∧
    (load_history (initState .nonList)).history = [] :=
  ⟨rfl, rfl, rfl⟩

/-- C9: a well-formed persisted list is installed verbatim by
`load_history`: no truncation to `max_history` and no deduplication, so
the loaded history has exactly the file's length (and exceeds the
capacity whenever the file does). -/
theorem load_history_installs_verbatim (s : FluentClip) (ds : List ItemDict) :
    (load_history { s with file := .entries ds }).history =
      ds.map ClipboardItem.from_dict ∧
    (load_history { s with file := .entries ds }).history.length = ds.length ∧
    (s.max_history < ds.length →
      (load_history { s with file := .entries ds }).max_history <
        (load_history { s with file := .entries ds }).history.length) := by
  have h1 : (load_history { s with file := .entries ds }).history =
      ds.map ClipboardItem.from_dict :=
    load_history_of_entries _ ds rfl
  have h2 : (load_history { s with file := .entries ds }).history.length =
      ds.length := by
    rw [h1, List.length_map]
  refine ⟨h1, h2, fun hgt => ?_⟩
  rw [h2, load_history_max_history]
  exact hgt

/-- Witness for C9: a two-object file loaded into a capacity-1 store
yields a history longer than the capacity. -/
theorem load_history_installs_verbatim_witness :
    (load_history { (initState (.entries [(exText "a" 0).to_dict,
        (exText "b" 1).to_dict]) : FluentClip) with
          max_history := 1 }).max_history <
      (load_history { (initState (.entries [(exText "a" 0).to_dict,
        (exText "b" 1).to_dict]) : FluentClip) with
          max_history := 1 }).history.length := by
  have h := (load_history_installs_verbatim
    { (initState (.entries [(exText "a" 0).to_dict, (exText "b" 1).to_dict]) :
        FluentClip) with max_history := 1 }
    [(exText "a" 0).to_dict, (exText "b" 1).to_dict]).2.2 (by decide)
  exact h

/-! Search. -/

/-- Claimed search predicate: the entry's content contains the query as
a case-insensitive substring. -/
def contentMatches (q : String) (it : ClipboardItem) : Bool :=
  containsChars (strLower it.content).data (strLower q).data

theorem containsChars_nil (hay : List Char) : containsChars hay [] = true := by
  cases hay with
  | nil => rfl
  | cons a as => rfl

/-- C7: under the well-formedness every program-made entry has (its type
tag is `"text"` or `"image"`), `on_search_changed` leaves the store
state unchanged and returns exactly the entries whose `content` field
(the synthetic label, for images) contains the query as a
case-insensitive substring, in history order; the empty query returns
the whole history in order, and a query matching no entry returns the
empty list. -/
theorem on_search_changed_spec (s : FluentClip) (q : String)
    (hwf : ∀ it ∈ s.history, it.type = "text" ∨ it.type = "image") :
    (on_search_changed s q).1 = s ∧
    (on_search_changed s q).2 = s.history.filter (contentMatches q) ∧
    (on_search_changed s "").2 = s.history ∧
    ((∀ it ∈ s.history, contentMatches q it = false) →
      (on_search_changed s q).2 = []) := by
  have hfilter : ∀ r : String, (on_search_changed s r).2 =
      s.history.filter (contentMatches r) := by
    intro r
    unfold on_search_changed
    refine List.filter_congr ?_
    intro it hit
    rcases hwf it hit with hty | hty
    · simp [hty, contentMatches]
    · simp [hty, contentMatches]
  refine ⟨rfl, hfilter q, ?_, ?_⟩
  · rw [hfilter ""]
    refine List.filter_eq_self.mpr ?_
    intro it _
    unfold contentMatches
    have : (strLower "").data = ([] : List Char) := rfl
    rw [this]
    exact containsChars_nil _
  · intro hnone
    rw [hfilter q]
    refine List.filter_eq_nil_iff.mpr ?_
    intro it hit
    simp [hnone it hit]

/-- Witness for C7: in the concrete state, the query `"ALPH"` matches
exactly the entry whose content is `"alpha"`. -/
theorem on_search_changed_spec_witness :
    (on_search_changed exState2 "ALPH").2 =
      exState2.history.filter (contentMatches "ALPH") :=
  (on_search_changed_spec exState2 "ALPH" (by decide)).2.1
